/-
Verification of the drag-and-sort skills game engine.

The embedding below is a shallow model of the `SkillsGame` React component
(src/components/skills, together with the catalog in skillsData). Two views
of the source are modelled:

* a bookkeeping state machine `GState` covering the live-body registry
  (`bodyRefs`), the bucket contents (`bucketItems`), `sortedCount`, the
  session timer (`startTimer` / `stopTimer` / the interval callback), the
  personal-best ledger (`localStorage` under `PB_KEY`), the drag handlers
  (`startdrag` / `enddrag`) and the explicit `handleReset`;

* a per-body physics-tick function `tickBody` covering the body-local part
  of the `afterUpdate` handler: the settle kick, the out-of-bounds counter
  and the soft / hard rescue logic, over rational coordinates.

Wall-clock instants, pointer positions and bucket screen rectangles are
inputs supplied by the environment and are therefore universally
quantified parameters of the transition relation.
-/
import Mathlib

namespace SortGame

/-! ## Catalog (skillsData.ts) -/

/-- The fixed closed set of categories, in source order. -/
def categories : List String :=
  ["Programming Languages", "Web & Cloud", "Database", "DevOps & Tools"]

/-- One sortable item of the catalog. -/
structure Skill where
  id : Nat
  name : String
  iconSrc : Option String
  category : String
  core : Bool := false
deriving DecidableEq

/-- The static catalog of sortable items (the `skills` array). -/
def skills : List Skill :=
  [ { id := 1,  name := "TypeScript", iconSrc := some "/icons/typescript.svg", category := "Programming Languages", core := true },
    { id := 2,  name := "JavaScript", iconSrc := some "/icons/javascript.svg", category := "Programming Languages", core := true },
    { id := 3,  name := "Python",     iconSrc := some "/icons/python.svg",     category := "Programming Languages", core := true },
    { id := 4,  name := "Java",       iconSrc := some "/icons/java.svg",       category := "Programming Languages" },
    { id := 5,  name := "C/C++",      iconSrc := some "/icons/cpp.svg",        category := "Programming Languages" },
    { id := 6,  name := "Rust",       iconSrc := some "/icons/rust.svg",       category := "Programming Languages" },
    { id := 7,  name := "HTML",       iconSrc := some "/icons/html5.svg",      category := "Web & Cloud" },
    { id := 8,  name := "CSS",        iconSrc := some "/icons/css3.svg",       category := "Web & Cloud" },
    { id := 9,  name := "React",      iconSrc := some "/icons/react.svg",      category := "Web & Cloud", core := true },
    { id := 10, name := "Next.js",    iconSrc := some "/icons/nextjs.svg",     category := "Web & Cloud", core := true },
    { id := 11, name := "Node.js",    iconSrc := some "/icons/nodejs.svg",     category := "Web & Cloud", core := true },
    { id := 12, name := "Tailwind",   iconSrc := some "/icons/tailwind.svg",   category := "Web & Cloud" },
    { id := 13, name := "AWS",        iconSrc := some "/icons/aws.svg",        category := "Web & Cloud" },
    { id := 14, name := "SQL",        iconSrc := some "/icons/sql.svg",        category := "Database", core := true },
    { id := 15, name := "MySQL",      iconSrc := some "/icons/mysql.svg",      category := "Database" },
    { id := 16, name := "PostgreSQL", iconSrc := some "/icons/postgresql.svg", category := "Database" },
    { id := 17, name := "Pandas",     iconSrc := some "/icons/pandas.svg",     category := "Database" },
    { id := 18, name := "Docker",     iconSrc := some "/icons/docker.svg",     category := "DevOps & Tools" },
    { id := 19, name := "Azure DevOps", iconSrc := some "/icons/azuredevops.svg", category := "DevOps & Tools" },
    { id := 20, name := "Git",        iconSrc := some "/icons/git.svg",        category := "DevOps & Tools", core := true } ]

/-! ## Tuning constants of SkillsGame.tsx (the ones the claims depend on) -/

def SETTLE_KICK : ℚ := 6.0
def WRONG_DROP_BOUNCE : ℚ := 7.0
def GUARD_LEFT : ℚ := 18
def GUARD_RIGHT : ℚ := 18
def GUARD_TOP : ℚ := 18
def OOB_SOFT_FRAMES : Nat := 50
def OOB_HARD_FRAMES : Nat := 90
def RELEASE_GRACE_FRAMES : Nat := 36

/-! ## Screen geometry -/

/-- A point in container coordinates (the mouse position, a body center). -/
structure Pt where
  x : ℚ
  y : ℚ
deriving DecidableEq

/-- A bucket screen rectangle, already translated to container coordinates
(the source subtracts the container offset from the DOM rect). -/
structure Rect where
  left : ℚ
  right : ℚ
  top : ℚ
  bottom : ℚ
deriving DecidableEq

/-- Containment test of the enddrag handler:
`m.x >= left && m.x <= right && m.y >= top && m.y <= bottom`. -/
def rectContains (r : Rect) (m : Pt) : Bool :=
  (r.left ≤ m.x) && (m.x ≤ r.right) && (r.top ≤ m.y) && (m.y ≤ r.bottom)

/-- Containment against the (possibly unmounted) DOM node of one bucket:
a missing node is skipped, exactly like the `continue` of the source loop. -/
def bucketHitTest (rects : String → Option Rect) (m : Pt) (c : String) : Bool :=
  match rects c with
  | none => false
  | some r => rectContains r m

/-- The enddrag bucket hit test: walk `categories` in order and return the
first category whose mounted rectangle contains the release point. -/
def bucketHit (rects : String → Option Rect) (m : Pt) : Option String :=
  categories.find? (bucketHitTest rects m)

/-! ## The bookkeeping state machine -/

/-- The session state of SkillsGame that the claims are about: the live-body
registry keyed by skill id, the bucket contents, the sorted counter, the
drag / out-of-bounds / grace registries, the timer and the personal-best
ledger. `ledger` models the value persisted in localStorage; `bestMs` is
the in-memory mirror loaded at mount. -/
structure GState where
  bodies : List Nat
  buckets : String → List Skill
  sortedCount : Nat
  draggingId : Option Nat
  oob : Nat → Nat
  grace : Nat → Nat
  running : Bool
  stopped : Bool
  startTime : ℚ
  elapsedMs : ℚ
  bestMs : Option ℚ
  ledger : Option ℚ
  lastWasPB : Bool

/-- Total number of items currently sitting in buckets, summed in the
fixed category order (`categories.map((c) => (bucketItems[c] || []).length)`). -/
def bucketTotal (s : GState) : Nat :=
  (categories.map (fun c => (s.buckets c).length)).sum

/-- `startTimer`: record the start instant, zero the elapsed time, clear the
stopped flag and the new-best flag, and (re)arm the interval. -/
def startTimerOn (t : ℚ) (s : GState) : GState :=
  { s with startTime := t, elapsedMs := 0, stopped := false,
           lastWasPB := false, running := true }

/-- The interval callback: while the timer is armed, republish
`now - startTime`; once the interval is cleared it never fires. -/
def tickStep (t : ℚ) (s : GState) : GState :=
  if s.running then { s with elapsedMs := t - s.startTime } else s

/-- `const isPB = prev == null || elapsedMs < prev`. -/
def isNewBest (prev : Option ℚ) (elapsed : ℚ) : Bool :=
  match prev with
  | none => true
  | some v => decide (elapsed < v)

/-- The completion effect (`allSorted` became true): stop the timer, then
compare the elapsed time with the previous best; on a strict improvement
(or no previous best) overwrite both the in-memory best and the persisted
ledger and raise the new-best flag, otherwise leave both untouched. -/
def completeStep (s : GState) : GState :=
  if isNewBest s.bestMs s.elapsedMs then
    { s with running := false, stopped := true,
             bestMs := some s.elapsedMs, ledger := some s.elapsedMs,
             lastWasPB := true }
  else
    { s with running := false, stopped := true, lastWasPB := false }

/-- `handleReset`: empty every bucket, zero the sorted counter, restart the
timer, clear the chip bodies and respawn one body per catalog item. The
drag / out-of-bounds / grace registries are left as they are (the source
does not clear them). -/
def resetStep (t : ℚ) (s : GState) : GState :=
  startTimerOn t
    { s with buckets := fun _ => [], sortedCount := 0,
             bodies := skills.map Skill.id }

/-- Initial state at mount: one live body per catalog item, empty buckets,
timer started at `t`, and the persisted best (if any) loaded into memory. -/
def initState (t : ℚ) (ledger0 : Option ℚ) : GState :=
  { bodies := skills.map Skill.id, buckets := fun _ => [], sortedCount := 0,
    draggingId := none, oob := fun _ => 0, grace := fun _ => 0,
    running := true, stopped := false, startTime := t, elapsedMs := 0,
    bestMs := ledger0, ledger := ledger0, lastWasPB := false }

/-- The `startdrag` handler: remember the dragged id, zero its
out-of-bounds counter and drop any pending post-release grace. -/
def startdragStep (id : Nat) (s : GState) : GState :=
  { s with draggingId := some id,
           oob := fun j => if j = id then 0 else s.oob j,
           grace := fun j => if j = id then 0 else s.grace j }

/-- The unconditional head of the `enddrag` handler: clear the dragged id,
zero the out-of-bounds counter of the released body and open its
post-release grace window. -/
def dragEndBase (s : GState) (id : Nat) : GState :=
  { s with draggingId := none,
           oob := fun j => if j = id then 0 else s.oob j,
           grace := fun j => if j = id then RELEASE_GRACE_FRAMES else s.grace j }

/-- The functional update passed to `setBucketItems` on a correct sort:
append the item to the hit bucket, unless an item with this id is already
in it (in which case the previous map is returned unchanged). -/
def bucketsAppend (bk : String → List Skill) (id : Nat) (sk : Skill)
    (cat : String) : String → List Skill :=
  if (bk cat).any (fun it => it.id = id) then bk
  else fun c => if c = cat then bk cat ++ [sk] else bk c

/-- The completion effect runs exactly when the derived check
`sortedCount == SKILLS.length` becomes true. -/
def finishCheck (s : GState) : GState :=
  if s.sortedCount = skills.length then completeStep s else s

/-- The correct-sort branch of `enddrag`: remove the body from the world and
the registry, append the item to the hit bucket unless it is already there,
increment the sorted counter, and, when the new counter equals the catalog
size, run the completion effect. -/
def dragEndSorted (s1 : GState) (id : Nat) (sk : Skill) (cat : String) : GState :=
  finishCheck
    { s1 with bodies := s1.bodies.erase id,
              buckets := bucketsAppend s1.buckets id sk cat,
              sortedCount := s1.sortedCount + 1 }

/-- The `enddrag` handler, bookkeeping view. The release point is the mouse
position when available, else the body center (`mouse?.position || b.position`);
the wrong-bucket and no-hit branches only mutate physics state and hence
leave this view at `dragEndBase`. -/
def enddragStep (s : GState) (id : Nat) (mouse : Option Pt) (bpos : Pt)
    (rects : String → Option Rect) : GState :=
  let s1 := dragEndBase s id
  match skills.find? (fun sk => sk.id = id) with
  | none => s1
  | some sk =>
    match bucketHit rects (mouse.getD bpos) with
    | some cat => if sk.category = cat then dragEndSorted s1 id sk cat else s1
    | none => s1

/-- One observable transition of the session: a timer tick, an explicit
reset, a drag start on a live body, or a drag release of a live body. -/
inductive Step : GState → GState → Prop
  | timer (s : GState) (t : ℚ) : Step s (tickStep t s)
  | reset (s : GState) (t : ℚ) : Step s (resetStep t s)
  | startdrag (s : GState) (id : Nat) (h : id ∈ s.bodies) :
      Step s (startdragStep id s)
  | enddrag (s : GState) (id : Nat) (mouse : Option Pt) (bpos : Pt)
      (rects : String → Option Rect) (h : id ∈ s.bodies) :
      Step s (enddragStep s id mouse bpos rects)

/-- States reachable in a session: the mount state followed by any number
of transitions. -/
inductive Reachable : GState → Prop
  | init (t : ℚ) (ledger0 : Option ℚ) : Reachable (initState t ledger0)
  | step {s s' : GState} (hr : Reachable s) (hs : Step s s') : Reachable s'

/-! ## The per-body physics tick (`afterUpdate`) -/

/-- The playable region computed by `getPlayBox`, together with its
precomputed center. -/
structure PlayBox where
  left : ℚ
  right : ℚ
  top : ℚ
  bottom : ℚ
  cx : ℚ
  cy : ℚ
deriving DecidableEq

/-- `getPlayBox`: container bounds minus the edge guards, bounded below by
the floor top, with a degenerate-box fallback around the container middle
when either extent is too small. -/
def getPlayBox (width height : ℚ) (floorY floorHalfH : ℚ) (VS : ℚ) : PlayBox :=
  let floorTop := floorY - floorHalfH
  let left0 := GUARD_LEFT * VS
  let right0 := width - GUARD_RIGHT * VS
  let top0 := GUARD_TOP * VS
  let bottom0 := floorTop - 4
  let tb : ℚ × ℚ :=
    if bottom0 - top0 < 40 then
      (max 4 (height * 0.5 - 20), min (height - 4) (height * 0.5 + 20))
    else (top0, bottom0)
  let lr : ℚ × ℚ :=
    if right0 - left0 < 40 then
      (max 4 (width * 0.5 - 20), min (width - 4) (width * 0.5 + 20))
    else (left0, right0)
  { left := lr.1, right := lr.2, top := tb.1, bottom := tb.2,
    cx := (lr.1 + lr.2) / 2, cy := (tb.1 + tb.2) / 2 }

/-- The tolerance used by the out-of-bounds test (`const tol = 8`). -/
def oobTol : ℚ := 8

/-- The out-of-bounds predicate of `afterUpdate`: the body center lies
outside the playable region by more than the tolerance. -/
def outOfPlay (play : PlayBox) (x y : ℚ) : Prop :=
  x < play.left - oobTol ∨ x > play.right + oobTol ∨
  y < play.top - oobTol ∨ y > play.bottom + oobTol

instance (play : PlayBox) (x y : ℚ) : Decidable (outOfPlay play x y) := by
  unfold outOfPlay; infer_instance

/-- The body-local state read and written by one `afterUpdate` iteration:
center position, velocity, angular velocity, the height of the body
bounds, the out-of-bounds counter, the remaining grace frames and whether
this body is the one currently dragged. -/
structure Chip where
  x : ℚ
  y : ℚ
  vx : ℚ
  vy : ℚ
  angVel : ℚ
  bh : ℚ
  oob : Nat
  grace : Nat
  dragging : Bool
deriving DecidableEq

/-- The settle kick of `afterUpdate`: a body whose vertical speed is below
the rest threshold and whose center is at or through the floor line gets
its vertical velocity set to the upward settle-kick value (and its
horizontal velocity damped). -/
def settleKickApply (floorY : ℚ) (c : Chip) : Chip :=
  if abs c.vy < 0.08 ∧ c.y > floorY - c.bh / 2 - 2 then
    { c with vx := c.vx * 0.98, vy := -SETTLE_KICK }
  else c

/-- One `afterUpdate` iteration for one live body. `rv` and `rw` are the
`Math.random()` draws used for the randomized rescue velocity and spin.
In order: the dragged body and bodies in grace skip everything except the
counter bookkeeping; then the settle kick fires for a body resting at or
through the floor line; then the out-of-bounds counter is reset or
incremented and the hard / soft rescues fire on their thresholds. -/
def tickBody (play : PlayBox) (floorY : ℚ) (rv rw : ℚ) (c : Chip) : Chip :=
  if c.dragging then { c with oob := 0 }
  else if c.grace > 0 then { c with grace := c.grace - 1, oob := 0 }
  else
    let c1 : Chip := settleKickApply floorY c
    if outOfPlay play c1.x c1.y then
      let n := c1.oob + 1
      if n > OOB_HARD_FRAMES then
        let maxY := min (play.bottom - c1.bh / 2 - 4) (floorY - c1.bh / 2 - 4)
        let targetY := max (play.top + c1.bh / 2 + 4)
          (min ((play.top + play.bottom) / 2) maxY)
        { c1 with x := play.cx, y := targetY,
                  vx := (rv - 0.5) * 2.5, vy := -SETTLE_KICK,
                  angVel := (rw - 0.5) * 0.15, oob := 0 }
      else if n > OOB_SOFT_FRAMES then
        let targetX := min (max c1.x (play.left + 6)) (play.right - 6)
        let maxY := min (play.bottom - c1.bh / 2 - 4) (floorY - c1.bh / 2 - 4)
        let targetY := min (max c1.y (play.top + c1.bh / 2 + 4)) maxY
        { c1 with x := targetX, y := targetY,
                  vx := (rv - 0.5) * 3, vy := -SETTLE_KICK,
                  angVel := (rw - 0.5) * 0.12, oob := n }
      else { c1 with oob := n }
    else { c1 with oob := 0 }

/-- Pin a body back to a fixed position: the environment of the rescue
termination scenario, in which something (the scenario premise: the body
is held outside the playable region) keeps overriding the position between
ticks while leaving the counters as the tick left them. -/
def pinned (px py : ℚ) (c : Chip) : Chip := { c with x := px, y := py }

/-- Iterate the simulation tick on a body that is pinned at `(px, py)`
between consecutive ticks. -/
def heldIter (play : PlayBox) (floorY rv rw px py : ℚ) (c : Chip) : Nat → Chip
  | 0 => pinned px py c
  | n + 1 => pinned px py (tickBody play floorY rv rw (heldIter play floorY rv rw px py c n))

/-! ## Generic list lemmas -/

/-- Updating one key of the summand shifts a nodup-indexed sum by the
difference at that key (stated addition-only to stay in `Nat`). -/
lemma sum_map_pointwise_update (l : List String) (hl : l.Nodup) (c : String)
    (hc : c ∈ l) (f : String → Nat) (k : Nat) :
    (l.map (fun x => if x = c then k else f x)).sum + f c = (l.map f).sum + k := by
  induction l with
  | nil => cases hc
  | cons a l ih =>
    rcases List.mem_cons.mp hc with h | h
    · subst h
      have hnotmem : c ∉ l := (List.nodup_cons.mp hl).1
      have hcong : l.map (fun x => if x = c then k else f x) = l.map f := by
        apply List.map_congr_left
        intro x hx
        have : x ≠ c := by rintro rfl; exact hnotmem hx
        simp [this]
      simp only [List.map_cons, List.sum_cons, hcong, if_true]
      omega
    · have hac : a ≠ c := by
        rintro rfl; exact (List.nodup_cons.mp hl).1 h
      have := ih (List.nodup_cons.mp hl).2 h
      simp only [List.map_cons, List.sum_cons, if_neg hac]
      omega

/-- Specification of `List.find?` returning `some`: the found element
satisfies the predicate, belongs to the list, and every element before it
fails the predicate. -/
lemma find?_first {α : Type} (p : α → Bool) :
    ∀ (l : List α) (a : α), l.find? p = some a →
      p a = true ∧ ∃ l1 l2, l = l1 ++ a :: l2 ∧ ∀ x ∈ l1, p x = false := by
  intro l
  induction l with
  | nil => intro a h; cases h
  | cons b l ih =>
    intro a h
    by_cases hb : p b
    · rw [List.find?_cons_of_pos _ hb] at h
      cases h
      exact ⟨hb, [], l, rfl, by intro x hx; cases hx⟩
    · rw [List.find?_cons_of_neg _ (by simpa using hb)] at h
      obtain ⟨hpa, l1, l2, hl, hfail⟩ := ih a h
      refine ⟨hpa, b :: l1, l2, by simp [hl], ?_⟩
      intro x hx
      rcases List.mem_cons.mp hx with rfl | hx
      · simpa using hb
      · exact hfail x hx

/-! ## The session invariant -/

/-- The bookkeeping core of the session invariant: the live-body registry
has no duplicate ids, bucket contents are catalog items filed under their
own category and only under the four real categories, no id appears in two
buckets or both in a bucket and in the registry, the live bodies and the
bucketed items together exactly account for the catalog, and the published
`sortedCount` equals the total bucket occupancy. -/
structure CoreInv (s : GState) : Prop where
  bodiesNodup : s.bodies.Nodup
  bucketsCat : ∀ c sk, sk ∈ s.buckets c → sk ∈ skills ∧ sk.category = c
  bucketsOther : ∀ c, c ∉ categories → s.buckets c = []
  bucketsDisjoint : ∀ c c' sk sk', c ≠ c' → sk ∈ s.buckets c →
    sk' ∈ s.buckets c' → sk.id ≠ sk'.id
  bodiesBuckets : ∀ i ∈ s.bodies, ∀ c, ∀ sk ∈ s.buckets c, sk.id ≠ i
  conservation : s.bodies.length + bucketTotal s = skills.length
  sortedEq : s.sortedCount = bucketTotal s

/-- The full session invariant: the core, plus the timer being stopped once
everything is sorted, plus the in-memory best mirroring the ledger. -/
structure Inv (s : GState) : Prop where
  core : CoreInv s
  completeStopped : s.sortedCount = skills.length → s.running = false
  bestLedger : s.bestMs = s.ledger

lemma idsNodup : (skills.map Skill.id).Nodup := by decide

lemma skillsLength : skills.length = 20 := by decide

lemma coreInv_fresh (t : ℚ) (l0 : Option ℚ) : CoreInv (initState t l0) := by
  refine ⟨idsNodup, ?_, ?_, ?_, ?_, ?_, ?_⟩
  · intro c sk h; cases h
  · intro c _; rfl
  · intro c c' sk sk' _ h; cases h
  · intro i _ c sk h; cases h
  · show (skills.map Skill.id).length + (categories.map (fun _ => ([] : List Skill).length)).sum = skills.length
    decide
  · show 0 = (categories.map (fun _ => ([] : List Skill).length)).sum
    decide

lemma inv_init (t : ℚ) (l0 : Option ℚ) : Inv (initState t l0) :=
  ⟨coreInv_fresh t l0,
    fun h => absurd (show (0 : Nat) = skills.length from h) (by decide), rfl⟩

lemma inv_reset (t : ℚ) (s : GState) (hInv : Inv s) : Inv (resetStep t s) := by
  refine ⟨⟨idsNodup, ?_, ?_, ?_, ?_, ?_, ?_⟩,
    fun h => absurd (show (0 : Nat) = skills.length from h) (by decide),
    hInv.bestLedger⟩
  · intro c sk h; cases h
  · intro c _; rfl
  · intro c c' sk sk' _ h; cases h
  · intro i _ c sk h; cases h
  · show (skills.map Skill.id).length + (categories.map (fun _ => ([] : List Skill).length)).sum = skills.length
    decide
  · show 0 = (categories.map (fun _ => ([] : List Skill).length)).sum
    decide

lemma inv_tick (t : ℚ) (s : GState) (h : Inv s) : Inv (tickStep t s) := by
  unfold tickStep
  split
  · exact ⟨⟨h.core.bodiesNodup, h.core.bucketsCat, h.core.bucketsOther,
      h.core.bucketsDisjoint, h.core.bodiesBuckets, h.core.conservation,
      h.core.sortedEq⟩, h.completeStopped, h.bestLedger⟩
  · exact h

lemma inv_startdrag (id : Nat) (s : GState) (h : Inv s) :
    Inv (startdragStep id s) :=
  ⟨⟨h.core.bodiesNodup, h.core.bucketsCat, h.core.bucketsOther,
    h.core.bucketsDisjoint, h.core.bodiesBuckets, h.core.conservation,
    h.core.sortedEq⟩, h.completeStopped, h.bestLedger⟩

lemma inv_dragEndBase (s : GState) (id : Nat) (h : Inv s) :
    Inv (dragEndBase s id) :=
  ⟨⟨h.core.bodiesNodup, h.core.bucketsCat, h.core.bucketsOther,
    h.core.bucketsDisjoint, h.core.bodiesBuckets, h.core.conservation,
    h.core.sortedEq⟩, h.completeStopped, h.bestLedger⟩

lemma inv_completeStep (s : GState) (hc : CoreInv s) (hb : s.bestMs = s.ledger) :
    Inv (completeStep s) := by
  unfold completeStep
  split
  · exact ⟨⟨hc.bodiesNodup, hc.bucketsCat, hc.bucketsOther, hc.bucketsDisjoint,
      hc.bodiesBuckets, hc.conservation, hc.sortedEq⟩, fun _ => rfl, rfl⟩
  · exact ⟨⟨hc.bodiesNodup, hc.bucketsCat, hc.bucketsOther, hc.bucketsDisjoint,
      hc.bodiesBuckets, hc.conservation, hc.sortedEq⟩, fun _ => rfl, hb⟩

/-- Appending one item to a bucket of the fixed category list grows the
total occupancy by exactly one. -/
lemma bucketTotal_update (bk : String → List Skill) (cat : String)
    (hcat : cat ∈ categories) (sk : Skill) :
    (categories.map (fun c => (if c = cat then bk cat ++ [sk] else bk c).length)).sum
      = (categories.map (fun c => (bk c).length)).sum + 1 := by
  have h1 : categories.map (fun c => (if c = cat then bk cat ++ [sk] else bk c).length)
      = categories.map (fun c => if c = cat then (bk cat).length + 1 else (bk c).length) := by
    apply List.map_congr_left
    intro c _
    by_cases h : c = cat <;> simp [h]
  rw [h1]
  have h2 := sum_map_pointwise_update categories (by decide) cat hcat
    (fun c => (bk c).length) ((bk cat).length + 1)
  omega

lemma inv_dragEndSorted (s1 : GState) (h : Inv s1) (id : Nat)
    (hid : id ∈ s1.bodies) (sk : Skill) (hsk : sk ∈ skills)
    (hskid : sk.id = id) (cat : String) (hcat : cat ∈ categories)
    (hmatch : sk.category = cat) : Inv (dragEndSorted s1 id sk cat) := by
  have hany : (s1.buckets cat).any (fun it => it.id = id) = false := by
    rw [List.any_eq_false]
    intro it hit
    simpa using h.core.bodiesBuckets id hid cat it hit
  have hbk : bucketsAppend s1.buckets id sk cat
      = fun c => if c = cat then s1.buckets cat ++ [sk] else s1.buckets c := by
    unfold bucketsAppend
    rw [hany]
    simp
  unfold dragEndSorted
  rw [hbk]
  have hcore2 : CoreInv
      { s1 with bodies := s1.bodies.erase id,
                buckets := fun c => if c = cat then s1.buckets cat ++ [sk] else s1.buckets c,
                sortedCount := s1.sortedCount + 1 } := by
    have hbt : (categories.map
        (fun c => (if c = cat then s1.buckets cat ++ [sk] else s1.buckets c).length)).sum
        = bucketTotal s1 + 1 := bucketTotal_update s1.buckets cat hcat sk
    refine ⟨h.core.bodiesNodup.erase id, ?_, ?_, ?_, ?_, ?_, ?_⟩
    · intro c skx hmem
      dsimp at hmem
      by_cases hc : c = cat
      · subst hc
        rw [if_pos rfl] at hmem
        rcases List.mem_append.mp hmem with hmem | hmem
        · exact h.core.bucketsCat c skx hmem
        · rcases List.mem_singleton.mp hmem with rfl
          exact ⟨hsk, hmatch⟩
      · rw [if_neg hc] at hmem
        exact h.core.bucketsCat c skx hmem
    · intro c hc
      dsimp
      have hne : c ≠ cat := by rintro rfl; exact hc hcat
      rw [if_neg hne]
      exact h.core.bucketsOther c hc
    · intro c c' skx sky hne hmx hmy
      dsimp at hmx hmy
      by_cases hc : c = cat
      · subst hc
        have hc' : c' ≠ c := fun hh => hne hh.symm
        rw [if_pos rfl] at hmx
        rw [if_neg hc'] at hmy
        rcases List.mem_append.mp hmx with hmx | hmx
        · exact h.core.bucketsDisjoint c c' skx sky hne hmx hmy
        · rcases List.mem_singleton.mp hmx with rfl
          rw [hskid]
          exact fun hh => h.core.bodiesBuckets id hid c' sky hmy hh.symm
      · rw [if_neg hc] at hmx
        by_cases hc' : c' = cat
        · subst hc'
          rw [if_pos rfl] at hmy
          rcases List.mem_append.mp hmy with hmy | hmy
          · exact h.core.bucketsDisjoint c c' skx sky hne hmx hmy
          · rcases List.mem_singleton.mp hmy with rfl
            intro hh
            exact h.core.bodiesBuckets id hid c skx hmx (hskid ▸ hh)
        · rw [if_neg hc'] at hmy
          exact h.core.bucketsDisjoint c c' skx sky hne hmx hmy
    · intro i hi c skx hmem
      dsimp at hi hmem
      have hi' := (h.core.bodiesNodup.mem_erase_iff).mp hi
      by_cases hc : c = cat
      · subst hc
        rw [if_pos rfl] at hmem
        rcases List.mem_append.mp hmem with hmem | hmem
        · exact h.core.bodiesBuckets i hi'.2 c skx hmem
        · rcases List.mem_singleton.mp hmem with rfl
          rw [hskid]
          exact fun hh => hi'.1 hh.symm
      · rw [if_neg hc] at hmem
        exact h.core.bodiesBuckets i hi'.2 c skx hmem
    · show (s1.bodies.erase id).length + _ = _
      have h1 : (s1.bodies.erase id).length = s1.bodies.length - 1 :=
        List.length_erase_of_mem hid
      have h2 : 0 < s1.bodies.length := List.length_pos_of_mem hid
      have h3 := h.core.conservation
      unfold bucketTotal at h3 hbt ⊢
      dsimp only
      omega
    · show s1.sortedCount + 1 = _
      have h3 := h.core.sortedEq
      unfold bucketTotal at h3 hbt ⊢
      dsimp only
      omega
  unfold finishCheck
  split
  · exact inv_completeStep _ hcore2 h.bestLedger
  · next hne =>
    exact ⟨hcore2, fun hh => absurd hh hne, h.bestLedger⟩

/-- `find?` by id returns a catalog member carrying that id. -/
lemma find?_skill {id : Nat} {sk : Skill}
    (h : skills.find? (fun k => k.id = id) = some sk) :
    sk ∈ skills ∧ sk.id = id := by
  refine ⟨List.mem_of_find?_eq_some h, ?_⟩
  have := List.find?_some h
  simpa using this

lemma inv_enddrag (s : GState) (h : Inv s) (id : Nat) (hid : id ∈ s.bodies)
    (mouse : Option Pt) (bpos : Pt) (rects : String → Option Rect) :
    Inv (enddragStep s id mouse bpos rects) := by
  unfold enddragStep
  cases hfind : skills.find? (fun sk => sk.id = id) with
  | none => exact inv_dragEndBase s id h
  | some sk =>
    cases hhit : bucketHit rects (mouse.getD bpos) with
    | none => exact inv_dragEndBase s id h
    | some cat =>
      dsimp only
      by_cases hm : sk.category = cat
      · rw [if_pos hm]
        obtain ⟨hsk, hskid⟩ := find?_skill hfind
        exact inv_dragEndSorted (dragEndBase s id) (inv_dragEndBase s id h)
          id hid sk hsk hskid cat (List.mem_of_find?_eq_some hhit) hm
      · rw [if_neg hm]
        exact inv_dragEndBase s id h

/-- Every session transition preserves the invariant. -/
lemma inv_step {s s' : GState} (h : Inv s) (hs : Step s s') : Inv s' := by
  cases hs with
  | timer t => exact inv_tick t s h
  | reset t => exact inv_reset t s h
  | startdrag id hid => exact inv_startdrag id s h
  | enddrag id mouse bpos rects hid => exact inv_enddrag s h id hid mouse bpos rects

/-- Every reachable session state satisfies the invariant. -/
lemma reachable_inv {s : GState} (h : Reachable s) : Inv s := by
  induction h with
  | init t l0 => exact inv_init t l0
  | step hr hs ih => exact inv_step ih hs

/-! ## Projection lemmas for the step functions -/

lemma completeStep_buckets (s : GState) : (completeStep s).buckets = s.buckets := by
  unfold completeStep; split <;> rfl

lemma completeStep_bodies (s : GState) : (completeStep s).bodies = s.bodies := by
  unfold completeStep; split <;> rfl

lemma completeStep_sortedCount (s : GState) :
    (completeStep s).sortedCount = s.sortedCount := by
  unfold completeStep; split <;> rfl

lemma completeStep_elapsed (s : GState) : (completeStep s).elapsedMs = s.elapsedMs := by
  unfold completeStep; split <;> rfl

lemma completeStep_running (s : GState) : (completeStep s).running = false := by
  unfold completeStep; split <;> rfl

lemma finishCheck_buckets (s : GState) : (finishCheck s).buckets = s.buckets := by
  unfold finishCheck; split
  · exact completeStep_buckets s
  · rfl

lemma finishCheck_sortedCount (s : GState) :
    (finishCheck s).sortedCount = s.sortedCount := by
  unfold finishCheck; split
  · exact completeStep_sortedCount s
  · rfl

lemma finishCheck_elapsed (s : GState) : (finishCheck s).elapsedMs = s.elapsedMs := by
  unfold finishCheck; split
  · exact completeStep_elapsed s
  · rfl

lemma finishCheck_ledger_of_ne (s : GState) (h : s.sortedCount ≠ skills.length) :
    (finishCheck s).ledger = s.ledger := by
  unfold finishCheck; rw [if_neg h]

lemma tickStep_elapsed_of_not_running (t : ℚ) (s : GState) (h : s.running = false) :
    (tickStep t s).elapsedMs = s.elapsedMs := by
  unfold tickStep; rw [if_neg (by simp [h])]

lemma tickStep_ledger (t : ℚ) (s : GState) : (tickStep t s).ledger = s.ledger := by
  unfold tickStep; split <;> rfl

/-- Outcome analysis of the `enddrag` handler: either nothing beyond the
unconditional head happened (no catalog item, no bucket hit, or a category
mismatch), or the release was a correct sort. -/
lemma enddrag_or (s : GState) (id : Nat) (mouse : Option Pt) (bpos : Pt)
    (rects : String → Option Rect) :
    enddragStep s id mouse bpos rects = dragEndBase s id ∨
    ∃ sk cat, skills.find? (fun k => k.id = id) = some sk ∧
      bucketHit rects (mouse.getD bpos) = some cat ∧ sk.category = cat ∧
      enddragStep s id mouse bpos rects = dragEndSorted (dragEndBase s id) id sk cat := by
  unfold enddragStep
  cases hfind : skills.find? (fun k => k.id = id) with
  | none => left; rfl
  | some sk =>
    cases hhit : bucketHit rects (mouse.getD bpos) with
    | none => left; rfl
    | some cat =>
      dsimp only
      by_cases hm : sk.category = cat
      · right; exact ⟨sk, cat, rfl, rfl, hm, by rw [if_pos hm]⟩
      · left; rw [if_neg hm]

lemma enddragStep_elapsed (s : GState) (id : Nat) (mouse : Option Pt) (bpos : Pt)
    (rects : String → Option Rect) :
    (enddragStep s id mouse bpos rects).elapsedMs = s.elapsedMs := by
  rcases enddrag_or s id mouse bpos rects with h | ⟨sk, cat, _, _, _, h⟩
  · rw [h]; rfl
  · rw [h]
    unfold dragEndSorted
    rw [finishCheck_elapsed]
    rfl

lemma startdragStep_elapsed (s : GState) (id : Nat) :
    (startdragStep id s).elapsedMs = s.elapsedMs := rfl

lemma completeStep_oob (s : GState) : (completeStep s).oob = s.oob := by
  unfold completeStep; split <;> rfl

lemma finishCheck_oob (s : GState) : (finishCheck s).oob = s.oob := by
  unfold finishCheck; split
  · exact completeStep_oob s
  · rfl

lemma dragEndBase_oob (s : GState) (id : Nat) : (dragEndBase s id).oob id = 0 := by
  show (if id = id then 0 else s.oob id) = 0
  rw [if_pos rfl]

/-- The enddrag handler zeroes the released body's out-of-bounds counter
in every branch. -/
lemma enddragStep_oob (s : GState) (id : Nat) (mouse : Option Pt) (bpos : Pt)
    (rects : String → Option Rect) :
    (enddragStep s id mouse bpos rects).oob id = 0 := by
  rcases enddrag_or s id mouse bpos rects with h | ⟨sk, cat, _, _, _, h⟩
  · rw [h]
    exact dragEndBase_oob s id
  · rw [h]
    unfold dragEndSorted
    rw [finishCheck_oob]
    exact dragEndBase_oob s id

/-! ## Case analysis of the per-body simulation tick -/

lemma settleKickApply_x (fy : ℚ) (c : Chip) : (settleKickApply fy c).x = c.x := by
  unfold settleKickApply; split <;> rfl

lemma settleKickApply_y (fy : ℚ) (c : Chip) : (settleKickApply fy c).y = c.y := by
  unfold settleKickApply; split <;> rfl

lemma settleKickApply_oob (fy : ℚ) (c : Chip) : (settleKickApply fy c).oob = c.oob := by
  unfold settleKickApply; split <;> rfl

lemma settleKickApply_grace (fy : ℚ) (c : Chip) :
    (settleKickApply fy c).grace = c.grace := by
  unfold settleKickApply; split <;> rfl

lemma settleKickApply_dragging (fy : ℚ) (c : Chip) :
    (settleKickApply fy c).dragging = c.dragging := by
  unfold settleKickApply; split <;> rfl

lemma settleKickApply_bh (fy : ℚ) (c : Chip) : (settleKickApply fy c).bh = c.bh := by
  unfold settleKickApply; split <;> rfl

lemma settleKickApply_vy_of_rest (fy : ℚ) (c : Chip)
    (h : abs c.vy < 0.08 ∧ c.y > fy - c.bh / 2 - 2) :
    (settleKickApply fy c).vy = -SETTLE_KICK := by
  unfold settleKickApply; rw [if_pos h]

lemma tickBody_dragged (play : PlayBox) (fy rv rw : ℚ) (c : Chip)
    (hd : c.dragging = true) :
    tickBody play fy rv rw c = { c with oob := 0 } := by
  unfold tickBody; rw [if_pos hd]

lemma tickBody_graced (play : PlayBox) (fy rv rw : ℚ) (c : Chip)
    (hd : c.dragging = false) (hg : 0 < c.grace) :
    tickBody play fy rv rw c = { c with grace := c.grace - 1, oob := 0 } := by
  unfold tickBody
  rw [if_neg (by simp [hd]), if_pos hg]

lemma tickBody_inside (play : PlayBox) (fy rv rw : ℚ) (c : Chip)
    (hd : c.dragging = false) (hg : c.grace = 0)
    (hout : ¬ outOfPlay play c.x c.y) :
    tickBody play fy rv rw c = { settleKickApply fy c with oob := 0 } := by
  unfold tickBody
  rw [if_neg (by simp [hd]), if_neg (by omega)]
  dsimp only
  rw [settleKickApply_x, settleKickApply_y, if_neg hout]

lemma tickBody_out_count (play : PlayBox) (fy rv rw : ℚ) (c : Chip)
    (hd : c.dragging = false) (hg : c.grace = 0)
    (hout : outOfPlay play c.x c.y) (hn : c.oob + 1 ≤ OOB_SOFT_FRAMES) :
    tickBody play fy rv rw c = { settleKickApply fy c with oob := c.oob + 1 } := by
  unfold tickBody
  rw [if_neg (by simp [hd]), if_neg (by omega)]
  dsimp only
  rw [settleKickApply_x, settleKickApply_y, if_pos hout, settleKickApply_oob]
  rw [if_neg (by unfold OOB_HARD_FRAMES; unfold OOB_SOFT_FRAMES at hn; omega),
      if_neg (by unfold OOB_SOFT_FRAMES at hn ⊢; omega)]

lemma tickBody_out_soft (play : PlayBox) (fy rv rw : ℚ) (c : Chip)
    (hd : c.dragging = false) (hg : c.grace = 0)
    (hout : outOfPlay play c.x c.y) (h1 : OOB_SOFT_FRAMES < c.oob + 1)
    (h2 : c.oob + 1 ≤ OOB_HARD_FRAMES) :
    tickBody play fy rv rw c =
      { settleKickApply fy c with
        x := min (max c.x (play.left + 6)) (play.right - 6),
        y := min (max c.y (play.top + c.bh / 2 + 4))
              (min (play.bottom - c.bh / 2 - 4) (fy - c.bh / 2 - 4)),
        vx := (rv - 0.5) * 3, vy := -SETTLE_KICK,
        angVel := (rw - 0.5) * 0.12, oob := c.oob + 1 } := by
  unfold tickBody
  rw [if_neg (by simp [hd]), if_neg (by omega)]
  dsimp only
  rw [settleKickApply_x, settleKickApply_y, if_pos hout, settleKickApply_oob]
  rw [if_neg (by omega), if_pos (by omega)]
  rw [settleKickApply_bh]

lemma tickBody_out_hard (play : PlayBox) (fy rv rw : ℚ) (c : Chip)
    (hd : c.dragging = false) (hg : c.grace = 0)
    (hout : outOfPlay play c.x c.y) (hn : OOB_HARD_FRAMES < c.oob + 1) :
    tickBody play fy rv rw c =
      { settleKickApply fy c with
        x := play.cx,
        y := max (play.top + c.bh / 2 + 4)
              (min ((play.top + play.bottom) / 2)
                (min (play.bottom - c.bh / 2 - 4) (fy - c.bh / 2 - 4))),
        vx := (rv - 0.5) * 2.5, vy := -SETTLE_KICK,
        angVel := (rw - 0.5) * 0.15, oob := 0 } := by
  unfold tickBody
  rw [if_neg (by simp [hd]), if_neg (by omega)]
  dsimp only
  rw [settleKickApply_x, settleKickApply_y, if_pos hout, settleKickApply_oob]
  rw [if_pos hn]
  rw [settleKickApply_bh]

/-- While a non-dragged, non-grace body is held pinned outside the playable
region, each simulation tick advances its out-of-bounds counter by exactly
one, for as long as the counter has not yet passed the hard threshold. -/
lemma heldIter_inv (play : PlayBox) (fy rv rw px py : ℚ) (c0 : Chip)
    (hd : c0.dragging = false) (hg : c0.grace = 0) (h0 : c0.oob = 0)
    (hout : outOfPlay play px py) :
    ∀ i, i ≤ OOB_HARD_FRAMES →
      (heldIter play fy rv rw px py c0 i).oob = i ∧
      (heldIter play fy rv rw px py c0 i).x = px ∧
      (heldIter play fy rv rw px py c0 i).y = py ∧
      (heldIter play fy rv rw px py c0 i).dragging = false ∧
      (heldIter play fy rv rw px py c0 i).grace = 0 := by
  intro i
  induction i with
  | zero => intro _; exact ⟨h0, rfl, rfl, hd, hg⟩
  | succ n ih =>
    intro hle
    obtain ⟨hoob, hx, hy, hdr, hgr⟩ := ih (by omega)
    have hstep : heldIter play fy rv rw px py c0 (n + 1)
        = pinned px py (tickBody play fy rv rw (heldIter play fy rv rw px py c0 n)) := rfl
    set cn := heldIter play fy rv rw px py c0 n with hcn
    have hout' : outOfPlay play cn.x cn.y := by rw [hx, hy]; exact hout
    by_cases hsoft : OOB_SOFT_FRAMES < cn.oob + 1
    · rw [hstep, tickBody_out_soft play fy rv rw cn hdr hgr hout' hsoft (by omega)]
      refine ⟨?_, rfl, rfl, ?_, ?_⟩
      · show cn.oob + 1 = n + 1
        omega
      · show (settleKickApply fy cn).dragging = false
        rw [settleKickApply_dragging]; exact hdr
      · show (settleKickApply fy cn).grace = 0
        rw [settleKickApply_grace]; exact hgr
    · rw [hstep, tickBody_out_count play fy rv rw cn hdr hgr hout' (by omega)]
      refine ⟨?_, rfl, rfl, ?_, ?_⟩
      · show cn.oob + 1 = n + 1
        omega
      · show (settleKickApply fy cn).dragging = false
        rw [settleKickApply_dragging]; exact hdr
      · show (settleKickApply fy cn).grace = 0
        rw [settleKickApply_grace]; exact hgr

/-! ## A concrete fully played-out session (used by the witnesses) -/

/-- Four disjoint bucket rectangles, one per category, in category order. -/
def demoRects : String → Option Rect := fun c =>
  if c = "Programming Languages" then some ⟨40, 90, 400, 450⟩
  else if c = "Web & Cloud" then some ⟨140, 190, 400, 450⟩
  else if c = "Database" then some ⟨240, 290, 400, 450⟩
  else if c = "DevOps & Tools" then some ⟨340, 390, 400, 450⟩
  else none

/-- A release point inside the demo rectangle of the given category. -/
def demoPt (c : String) : Pt :=
  if c = "Web & Cloud" then ⟨165, 425⟩
  else if c = "Database" then ⟨265, 425⟩
  else if c = "DevOps & Tools" then ⟨365, 425⟩
  else ⟨65, 425⟩

/-- Release one item over the bucket of its own category. -/
def sortOne (s : GState) (sk : Skill) : GState :=
  enddragStep s sk.id (some (demoPt sk.category)) ⟨0, 0⟩ demoRects

/-- The session obtained by sorting the catalog items one after the other,
in catalog order, each over its correct bucket. -/
def demoStates : Nat → GState
  | 0 => initState 0 none
  | n + 1 => sortOne (demoStates n) (skills.getD n ⟨0, "", none, "", false⟩)

lemma demo_mem : ∀ n, n < 20 →
    (skills.getD n ⟨0, "", none, "", false⟩).id ∈ (demoStates n).bodies := by decide

lemma reach_demo (n : Nat) (h : n ≤ 20) : Reachable (demoStates n) := by
  induction n with
  | zero => exact Reachable.init 0 none
  | succ m ih =>
    have hm : Reachable (demoStates m) := ih (by omega)
    exact hm.step (Step.enddrag (demoStates m) _ _ _ _ (demo_mem m (by omega)))

/-- The fully sorted demo session is reachable. -/
lemma reach_demo20 : Reachable (demoStates 20) := reach_demo 20 (by omega)

/-! ## Further step lemmas used by the claim theorems -/

/-- A bucket map only ever grows under `bucketsAppend`. -/
lemma bucketsAppend_grows (bk : String → List Skill) (id : Nat) (sk : Skill)
    (cat c : String) : ∃ u, bucketsAppend bk id sk cat c = bk c ++ u := by
  unfold bucketsAppend
  split
  · exact ⟨[], (List.append_nil _).symm⟩
  · by_cases hc : c = cat
    · subst hc
      refine ⟨[sk], ?_⟩
      dsimp only
      rw [if_pos rfl]
    · refine ⟨[], ?_⟩
      dsimp only
      rw [if_neg hc, List.append_nil]

/-- When the released id is not yet in the target bucket, `bucketsAppend`
is the pointwise append at that bucket. -/
lemma bucketsAppend_of_fresh (bk : String → List Skill) (id : Nat) (sk : Skill)
    (cat : String) (hany : (bk cat).any (fun it => it.id = id) = false) :
    bucketsAppend bk id sk cat
      = fun c => if c = cat then bk cat ++ [sk] else bk c := by
  unfold bucketsAppend
  rw [hany]
  simp

/-- An id that still has a live body occurs in no bucket. -/
lemma fresh_any (s : GState) (hInv : Inv s) (id : Nat) (hid : id ∈ s.bodies)
    (cat : String) : (s.buckets cat).any (fun it => it.id = id) = false := by
  rw [List.any_eq_false]
  intro it hit
  simpa using hInv.core.bodiesBuckets id hid cat it hit

lemma tickStep_run (t : ℚ) (s : GState) (h : s.running = true) :
    tickStep t s = { s with elapsedMs := t - s.startTime } := by
  unfold tickStep; rw [if_pos h]

/-- Once the timer is armed, `finishCheck` stops it exactly when the
derived completion check holds. -/
lemma finishCheck_run_iff (s : GState) (hrun : s.running = true) :
    ((finishCheck s).running = false ↔ (finishCheck s).sortedCount = skills.length) := by
  unfold finishCheck
  split
  · next htot =>
    constructor
    · intro _; rw [completeStep_sortedCount]; exact htot
    · intro _; exact completeStep_running s
  · next htot =>
    constructor
    · intro hh; rw [hrun] at hh; exact absurd hh (by decide)
    · intro hh; exact absurd hh htot

/-! ## Claim C1 -/

/-- C1: at every reachable point of a session — after initialization
(spawn and scatter), after every drag release, and after reset — the
number of live bodies plus the total number of items across all buckets
equals the number of catalog items: every item is either in play or
sorted, never both and never neither. -/
theorem C1_conservation (s : GState) (hr : Reachable s) :
    s.bodies.length + bucketTotal s = skills.length :=
  (reachable_inv hr).core.conservation

theorem C1_conservation_witness :
    (demoStates 20).bodies.length + bucketTotal (demoStates 20) = skills.length :=
  C1_conservation (demoStates 20) reach_demo20

/-! ## Claim C2 -/

/-- C2: in every reachable session state, an item sits in a bucket only if
the item category equals the bucket category, an item appears in at most
one bucket, and no transition of the session other than reset ever removes
an item from a bucket (every non-reset step leaves each bucket list a
prefix of its successor). -/
theorem C2_sort_correctness (s : GState) (hr : Reachable s) :
    (∀ c sk, sk ∈ s.buckets c → sk.category = c) ∧
    (∀ c c' sk, sk ∈ s.buckets c → sk ∈ s.buckets c' → c = c') ∧
    (∀ (t : ℚ) (c : String), ∃ u, (tickStep t s).buckets c = s.buckets c ++ u) ∧
    (∀ (id : Nat) (c : String), ∃ u, (startdragStep id s).buckets c = s.buckets c ++ u) ∧
    (∀ (id : Nat) (mouse : Option Pt) (bpos : Pt) (rects : String → Option Rect)
        (c : String),
        ∃ u, (enddragStep s id mouse bpos rects).buckets c = s.buckets c ++ u) := by
  have hInv := reachable_inv hr
  refine ⟨?_, ?_, ?_, ?_, ?_⟩
  · intro c sk h
    exact (hInv.core.bucketsCat c sk h).2
  · intro c c' sk h h'
    by_cases hcc : c = c'
    · exact hcc
    · exact absurd rfl (hInv.core.bucketsDisjoint c c' sk sk hcc h h')
  · intro t c
    refine ⟨[], ?_⟩
    rw [List.append_nil]
    unfold tickStep; split <;> rfl
  · intro id c
    exact ⟨[], by rw [List.append_nil]; rfl⟩
  · intro id mouse bpos rects c
    rcases enddrag_or s id mouse bpos rects with h | ⟨sk, cat, _, _, _, h⟩
    · rw [h]; exact ⟨[], by rw [List.append_nil]; rfl⟩
    · rw [h]
      unfold dragEndSorted
      rw [finishCheck_buckets]
      exact bucketsAppend_grows _ id sk cat c

theorem C2_sort_correctness_witness :
    (Skill.mk 14 "SQL" (some "/icons/sql.svg") "Database" true)
        ∈ (demoStates 20).buckets "Database" ∧
    (Skill.mk 14 "SQL" (some "/icons/sql.svg") "Database" true).category
        = "Database" :=
  ⟨by decide,
   (C2_sort_correctness (demoStates 20) reach_demo20).1 "Database"
     (Skill.mk 14 "SQL" (some "/icons/sql.svg") "Database" true) (by decide)⟩

/-! ## Claim C10 -/

/-- C10: in every reachable session state the published `sortedCount`
equals the sum of the bucket sizes; a correct-sort release increments
`sortedCount` by exactly one and appends exactly that one item to exactly
the hit bucket, leaving all other buckets unchanged; and reset zeroes
`sortedCount` and empties every bucket together. -/
theorem C10_sorted_count (s : GState) (hr : Reachable s) :
    s.sortedCount = bucketTotal s ∧
    (∀ (id : Nat) (sk : Skill) (cat : String) (mouse : Option Pt) (bpos : Pt)
        (rects : String → Option Rect),
        id ∈ s.bodies →
        skills.find? (fun k => k.id = id) = some sk →
        bucketHit rects (mouse.getD bpos) = some cat →
        sk.category = cat →
        (enddragStep s id mouse bpos rects).sortedCount = s.sortedCount + 1 ∧
        (enddragStep s id mouse bpos rects).buckets cat = s.buckets cat ++ [sk] ∧
        (∀ c, c ≠ cat → (enddragStep s id mouse bpos rects).buckets c = s.buckets c)) ∧
    (∀ t : ℚ, (resetStep t s).sortedCount = 0 ∧ ∀ c, (resetStep t s).buckets c = []) := by
  have hInv := reachable_inv hr
  refine ⟨hInv.core.sortedEq, ?_, ?_⟩
  · intro id sk cat mouse bpos rects hid hfind hhit hm
    have hend : enddragStep s id mouse bpos rects
        = dragEndSorted (dragEndBase s id) id sk cat := by
      unfold enddragStep
      rw [hfind, hhit]
      dsimp only
      rw [if_pos hm]
    have hany : ((dragEndBase s id).buckets cat).any (fun it => it.id = id) = false :=
      fresh_any s hInv id hid cat
    rw [hend]
    unfold dragEndSorted
    refine ⟨?_, ?_, ?_⟩
    · rw [finishCheck_sortedCount]
      rfl
    · rw [finishCheck_buckets]
      show bucketsAppend (dragEndBase s id).buckets id sk cat cat = _
      rw [bucketsAppend_of_fresh _ _ _ _ hany]
      dsimp only
      rw [if_pos rfl]
      rfl
    · intro c hc
      rw [finishCheck_buckets]
      show bucketsAppend (dragEndBase s id).buckets id sk cat c = _
      rw [bucketsAppend_of_fresh _ _ _ _ hany]
      dsimp only
      rw [if_neg hc]
      rfl
  · intro t
    exact ⟨rfl, fun c => rfl⟩

theorem C10_sorted_count_witness :
    (demoStates 10).sortedCount = bucketTotal (demoStates 10) :=
  (C10_sorted_count (demoStates 10) (reach_demo 10 (by omega))).1

/-! ## Claim C3 -/

/-- C3: for every session run, the published elapsed time is non-decreasing
while the timer is running (given non-decreasing clock readings) and stops
changing once `sortedCount` equals the catalog size; a drag release stops
the timer exactly when the pure derived check
`sortedCount == skills.length` holds afterwards; and the timer is
(re)started, from zero, at session initialization and by explicit reset. -/
theorem C3_timer (s : GState) (hr : Reachable s) :
    (∀ t1 t2 : ℚ, s.running = true → t1 ≤ t2 →
        (tickStep t1 s).elapsedMs ≤ (tickStep t2 (tickStep t1 s)).elapsedMs) ∧
    (s.sortedCount = skills.length →
        (∀ t : ℚ, (tickStep t s).elapsedMs = s.elapsedMs) ∧
        (∀ (id : Nat) (mouse : Option Pt) (bpos : Pt) (rects : String → Option Rect),
            (enddragStep s id mouse bpos rects).elapsedMs = s.elapsedMs) ∧
        (∀ id : Nat, (startdragStep id s).elapsedMs = s.elapsedMs)) ∧
    (∀ (id : Nat) (mouse : Option Pt) (bpos : Pt) (rects : String → Option Rect),
        s.running = true →
        ((enddragStep s id mouse bpos rects).running = false ↔
          (enddragStep s id mouse bpos rects).sortedCount = skills.length)) ∧
    (∀ t : ℚ, (resetStep t s).running = true ∧ (resetStep t s).elapsedMs = 0 ∧
        (resetStep t s).stopped = false ∧ (resetStep t s).startTime = t ∧
        ∀ t2 : ℚ, t ≤ t2 → 0 ≤ (tickStep t2 (resetStep t s)).elapsedMs) ∧
    (∀ (t : ℚ) (l0 : Option ℚ),
        (initState t l0).running = true ∧ (initState t l0).elapsedMs = 0) := by
  refine ⟨?_, ?_, ?_, ?_, ?_⟩
  · intro t1 t2 hrun hle
    rw [tickStep_run t1 s hrun,
        tickStep_run t2 { s with elapsedMs := t1 - s.startTime } hrun]
    show t1 - s.startTime ≤ t2 - s.startTime
    linarith
  · intro htot
    have hstop : s.running = false := (reachable_inv hr).completeStopped htot
    refine ⟨?_, ?_, ?_⟩
    · intro t; exact tickStep_elapsed_of_not_running t s hstop
    · intro id mouse bpos rects; exact enddragStep_elapsed s id mouse bpos rects
    · intro id; rfl
  · intro id mouse bpos rects hrun
    rcases enddrag_or s id mouse bpos rects with h | ⟨sk, cat, _, _, _, h⟩
    · rw [h]
      constructor
      · intro hh
        have hh' : s.running = false := hh
        rw [hrun] at hh'
        exact absurd hh' (by decide)
      · intro hh
        have hh' : s.sortedCount = skills.length := hh
        have := (reachable_inv hr).completeStopped hh'
        rw [this] at hrun
        exact absurd hrun (by decide)
    · rw [h]
      unfold dragEndSorted
      exact finishCheck_run_iff _ hrun
  · intro t
    refine ⟨rfl, rfl, rfl, rfl, ?_⟩
    intro t2 hle
    rw [tickStep_run t2 _ rfl]
    show (0 : ℚ) ≤ t2 - t
    linarith
  · intro t l0
    exact ⟨rfl, rfl⟩

theorem C3_timer_witness :
    (tickStep 5 (demoStates 20)).elapsedMs = (demoStates 20).elapsedMs ∧
    (demoStates 20).sortedCount = skills.length :=
  ⟨((C3_timer (demoStates 20) reach_demo20).2.1 (by decide)).1 5, by decide⟩

/-! ## Claim C4 -/

/-- C4: at completion, when no best is stored or the elapsed time strictly
beats it, both the in-memory best and the persisted ledger are overwritten
with the elapsed time and the new-best flag is raised; when the elapsed
time is greater than or equal to the stored best, ledger, best and flag
are left untouched (flag false); consequently, along any transition of a
reachable session the persisted best never increases. -/
theorem C4_best_time (s : GState) (hr : Reachable s) :
    (s.bestMs = none →
        (completeStep s).ledger = some s.elapsedMs ∧
        (completeStep s).bestMs = some s.elapsedMs ∧
        (completeStep s).lastWasPB = true) ∧
    (∀ v : ℚ, s.bestMs = some v → s.elapsedMs < v →
        (completeStep s).ledger = some s.elapsedMs ∧
        (completeStep s).bestMs = some s.elapsedMs ∧
        (completeStep s).lastWasPB = true) ∧
    (∀ v : ℚ, s.bestMs = some v → v ≤ s.elapsedMs →
        (completeStep s).ledger = s.ledger ∧
        (completeStep s).bestMs = s.bestMs ∧
        (completeStep s).lastWasPB = false) ∧
    (∀ s' : GState, Step s s' → ∀ v w : ℚ,
        s.ledger = some v → s'.ledger = some w → w ≤ v) := by
  have same : ∀ (u : Option ℚ) (v w : ℚ), u = some v → u = some w → w ≤ v := by
    intro u v w h1 h2
    rw [h1] at h2
    exact le_of_eq (Option.some.inj h2).symm
  refine ⟨?_, ?_, ?_, ?_⟩
  · intro hnone
    unfold completeStep
    rw [if_pos (by rw [hnone]; rfl)]
    exact ⟨rfl, rfl, rfl⟩
  · intro v hv hlt
    unfold completeStep
    rw [if_pos (by rw [hv]; unfold isNewBest; simpa using hlt)]
    exact ⟨rfl, rfl, rfl⟩
  · intro v hv hge
    unfold completeStep
    rw [if_neg (by rw [hv]; unfold isNewBest; simp; linarith)]
    exact ⟨rfl, rfl, rfl⟩
  · intro s' hs v w hv hw
    have hbl := (reachable_inv hr).bestLedger
    cases hs with
    | timer t =>
      rw [tickStep_ledger] at hw
      exact same _ v w hv hw
    | reset t =>
      exact same _ v w hv hw
    | startdrag id hid =>
      exact same _ v w hv hw
    | enddrag id mouse bpos rects hid =>
      rcases enddrag_or s id mouse bpos rects with h | ⟨sk, cat, _, _, _, h⟩
      · rw [h] at hw
        exact same _ v w hv hw
      · rw [h] at hw
        unfold dragEndSorted finishCheck at hw
        split at hw
        · unfold completeStep at hw
          split at hw
          · next hpb =>
            have hpb' : isNewBest s.bestMs s.elapsedMs = true := hpb
            rw [hbl, hv] at hpb'
            have hlt : s.elapsedMs < v := by
              unfold isNewBest at hpb'
              simpa using hpb'
            have hw' : some s.elapsedMs = some w := hw
            rw [← Option.some.inj hw']
            exact le_of_lt hlt
          · exact same _ v w hv hw
        · exact same _ v w hv hw

theorem C4_best_time_witness :
    (completeStep (demoStates 20)).ledger = (demoStates 20).ledger ∧
    (completeStep (demoStates 20)).bestMs = (demoStates 20).bestMs ∧
    (completeStep (demoStates 20)).lastWasPB = false :=
  (C4_best_time (demoStates 20) reach_demo20).2.2.1 0 (by decide) (by decide)

/-! ## Claim C8 -/

/-- C8: the drag-release bucket decision is a function of the release
pointer position alone (when the mouse position is available, the dragged
body center never influences the outcome), and the hit test walks the
buckets in the fixed category order, the first rectangle containing the
point winning — overlapping buckets are resolved by first-match priority. -/
theorem C8_hit_testing :
    (∀ (s : GState) (id : Nat) (p : Pt) (b1 b2 : Pt) (rects : String → Option Rect),
        enddragStep s id (some p) b1 rects = enddragStep s id (some p) b2 rects) ∧
    (∀ (rects : String → Option Rect) (m : Pt) (cat : String),
        bucketHit rects m = some cat →
        bucketHitTest rects m cat = true ∧
        ∃ pre post, categories = pre ++ cat :: post ∧
          ∀ c ∈ pre, bucketHitTest rects m c = false) := by
  constructor
  · intro s id p b1 b2 rects
    simp only [enddragStep, Option.getD_some]
  · intro rects m cat h
    obtain ⟨hp, l1, l2, hl, hfail⟩ := find?_first (bucketHitTest rects m) categories cat h
    exact ⟨hp, l1, l2, hl, hfail⟩

/-- Two overlapping bucket rectangles, in the two first category slots. -/
def overlapRects : String → Option Rect := fun c =>
  if c = "Programming Languages" then some ⟨0, 100, 0, 100⟩
  else if c = "Web & Cloud" then some ⟨0, 100, 0, 100⟩
  else none

theorem C8_hit_testing_witness :
    bucketHitTest overlapRects ⟨50, 50⟩ "Programming Languages" = true ∧
    ∃ pre post, categories = pre ++ "Programming Languages" :: post ∧
      ∀ c ∈ pre, bucketHitTest overlapRects ⟨50, 50⟩ c = false :=
  C8_hit_testing.2 overlapRects ⟨50, 50⟩ "Programming Languages" (by decide)

/-! ## Concrete tick environments (for counterexamples and witnesses) -/

/-- The playable region of an 800x600 container with the floor centered at
y = 500 (half height 9) and visual scale 1: left 18, right 782, top 18,
bottom 487, center x 400. -/
def demoPlay : PlayBox := getPlayBox 800 600 500 9 1

def chipHard : Chip := ⟨-100, 100, 0, 5, 0, 24, 90, 0, false⟩
def chipHeld : Chip := ⟨-100, 100, 0, 0, 0, 24, 0, 0, false⟩
def chipSoft : Chip := ⟨-100, 100, 0, 5, 0, 24, 50, 0, false⟩
def chipOut10 : Chip := ⟨-100, 100, 0, 5, 0, 24, 10, 0, false⟩
def chipDrag : Chip := ⟨100, 500, 0, 0, 0, 24, 0, 0, true⟩
def chipRest : Chip := ⟨100, 495, 1, 0, 0, 24, 0, 0, false⟩

lemma demoPlay_eq :
    demoPlay = { left := 18, right := 782, top := 18, bottom := 487,
                 cx := 400, cy := 505 / 2 } := by
  unfold demoPlay getPlayBox GUARD_LEFT GUARD_RIGHT GUARD_TOP
  norm_num

/-- The point (-100, 100) is out of the demo playable region (left of it). -/
lemma demoOut : outOfPlay demoPlay (-100) 100 := by
  rw [demoPlay_eq]
  unfold outOfPlay oobTol
  exact Or.inl (by norm_num)

lemma chipRest_rest : abs chipRest.vy < 0.08 := by
  rw [show chipRest.vy = 0 from rfl, abs_zero]
  norm_num

lemma chipRest_floor : chipRest.y > 480 - chipRest.bh / 2 - 2 := by
  show (495 : ℚ) > 480 - 24 / 2 - 2
  norm_num

/-! ## Claim C5 (corrected) -/

/-- C5 counterexample: a live, non-dragged, non-grace body out of the
playable region with its counter at the hard threshold. The claim as
stated predicts the counter is incremented by exactly one (to 91); the
code increments it and then the hard rescue zeroes it in the same tick,
so the counter observed after the tick is 0. -/
theorem C5_counterexample :
    chipHard.dragging = false ∧ chipHard.grace = 0 ∧
    outOfPlay demoPlay chipHard.x chipHard.y ∧
    (tickBody demoPlay 500 (1/2) (1/2) chipHard).oob ≠ chipHard.oob + 1 ∧
    (tickBody demoPlay 500 (1/2) (1/2) chipHard).oob = 0 := by
  have hout : outOfPlay demoPlay chipHard.x chipHard.y := demoOut
  have hh := tickBody_out_hard demoPlay 500 (1/2) (1/2) chipHard rfl rfl hout
    (by decide)
  refine ⟨rfl, rfl, hout, ?_, ?_⟩
  · rw [hh]; decide
  · rw [hh]

/-- C5 (amended): the out-of-bounds counter is a natural number that, on
every simulation tick, is reset to zero when the body is dragged, in its
post-release grace window, or inside the playable region (with tolerance),
and is incremented by exactly one otherwise — except on the tick where the
incremented value exceeds the hard threshold, where the hard rescue
immediately resets it to zero within the same tick. Drag start and drag
end also reset the counter to zero. -/
theorem C5_oob_counter (play : PlayBox) (floorY rv rw : ℚ) (c : Chip)
    (s : GState) (id : Nat) (mouse : Option Pt) (bpos : Pt)
    (rects : String → Option Rect) :
    (c.dragging = true → (tickBody play floorY rv rw c).oob = 0) ∧
    (c.dragging = false → 0 < c.grace → (tickBody play floorY rv rw c).oob = 0) ∧
    (c.dragging = false → c.grace = 0 → ¬ outOfPlay play c.x c.y →
        (tickBody play floorY rv rw c).oob = 0) ∧
    (c.dragging = false → c.grace = 0 → outOfPlay play c.x c.y →
        c.oob + 1 ≤ OOB_HARD_FRAMES →
        (tickBody play floorY rv rw c).oob = c.oob + 1) ∧
    (c.dragging = false → c.grace = 0 → outOfPlay play c.x c.y →
        OOB_HARD_FRAMES < c.oob + 1 →
        (tickBody play floorY rv rw c).oob = 0) ∧
    (startdragStep id s).oob id = 0 ∧
    (enddragStep s id mouse bpos rects).oob id = 0 := by
  refine ⟨?_, ?_, ?_, ?_, ?_, ?_, ?_⟩
  · intro hd
    rw [tickBody_dragged play floorY rv rw c hd]
  · intro hd hg
    rw [tickBody_graced play floorY rv rw c hd hg]
  · intro hd hg hout
    rw [tickBody_inside play floorY rv rw c hd hg hout]
  · intro hd hg hout hn
    by_cases hsoft : OOB_SOFT_FRAMES < c.oob + 1
    · rw [tickBody_out_soft play floorY rv rw c hd hg hout hsoft hn]
    · rw [tickBody_out_count play floorY rv rw c hd hg hout (by omega)]
  · intro hd hg hout hn
    rw [tickBody_out_hard play floorY rv rw c hd hg hout hn]
  · show (if id = id then 0 else s.oob id) = 0
    rw [if_pos rfl]
  · exact enddragStep_oob s id mouse bpos rects

theorem C5_oob_counter_witness :
    (tickBody demoPlay 500 (1/2) (1/2) chipOut10).oob = chipOut10.oob + 1 :=
  (C5_oob_counter demoPlay 500 (1/2) (1/2) chipOut10 (initState 0 none) 1 none
      ⟨0, 0⟩ demoRects).2.2.2.1 rfl rfl demoOut (by decide)

/-! ## Claim C6 -/

/-- C6: when a live, non-dragged, non-grace body whose counter has reached
the hard threshold is found out of the playable region, that tick
teleports it to the horizontal center of the playable region (and to the
vertical middle, clamped above the floor), gives it a small randomized
velocity (magnitude at most 1.25) and spin (at most 0.075), and resets its
counter to zero; consequently a body held pinned outside the playable
region with no pointer interaction reaches the threshold and is
hard-corrected within `OOB_HARD_FRAMES` ticks of the first out-of-bounds
detection, after which its counter is 0. -/
theorem C6_hard_rescue (play : PlayBox) (w h fy fhh vs rv rw px py : ℚ)
    (hplay : play = getPlayBox w h fy fhh vs) (c : Chip)
    (hd : c.dragging = false) (hg : c.grace = 0)
    (hout : outOfPlay play c.x c.y) (hn : OOB_HARD_FRAMES ≤ c.oob) :
    (tickBody play fy rv rw c).x = play.cx ∧
    play.cx = (play.left + play.right) / 2 ∧
    (tickBody play fy rv rw c).y
      = max (play.top + c.bh / 2 + 4)
          (min ((play.top + play.bottom) / 2)
            (min (play.bottom - c.bh / 2 - 4) (fy - c.bh / 2 - 4))) ∧
    (tickBody play fy rv rw c).vy = -SETTLE_KICK ∧
    (0 ≤ rv → rv < 1 → abs ((tickBody play fy rv rw c).vx) ≤ 1.25) ∧
    (0 ≤ rw → rw < 1 → abs ((tickBody play fy rv rw c).angVel) ≤ 0.075) ∧
    (tickBody play fy rv rw c).oob = 0 ∧
    (∀ c0 : Chip, c0.dragging = false → c0.grace = 0 → c0.oob = 0 →
        outOfPlay play px py →
        (heldIter play fy rv rw px py c0 OOB_HARD_FRAMES).oob = OOB_HARD_FRAMES ∧
        (tickBody play fy rv rw (heldIter play fy rv rw px py c0 OOB_HARD_FRAMES)).oob = 0 ∧
        (tickBody play fy rv rw (heldIter play fy rv rw px py c0 OOB_HARD_FRAMES)).x
          = play.cx) := by
  have hhard := tickBody_out_hard play fy rv rw c hd hg hout (by omega)
  refine ⟨by rw [hhard], ?_, by rw [hhard], by rw [hhard], ?_, ?_, by rw [hhard], ?_⟩
  · rw [hplay]
    rfl
  · intro h0 h1
    rw [hhard]
    show abs ((rv - 0.5) * 2.5) ≤ 1.25
    have h2 : abs (rv - 0.5) ≤ 0.5 := abs_le.mpr ⟨by linarith, by linarith⟩
    rw [abs_mul, abs_of_pos (show (0 : ℚ) < 2.5 by norm_num)]
    calc abs (rv - 0.5) * 2.5 ≤ 0.5 * 2.5 :=
          mul_le_mul_of_nonneg_right h2 (by norm_num)
      _ = 1.25 := by norm_num
  · intro h0 h1
    rw [hhard]
    show abs ((rw - 0.5) * 0.15) ≤ 0.075
    have h2 : abs (rw - 0.5) ≤ 0.5 := abs_le.mpr ⟨by linarith, by linarith⟩
    rw [abs_mul, abs_of_pos (show (0 : ℚ) < 0.15 by norm_num)]
    calc abs (rw - 0.5) * 0.15 ≤ 0.5 * 0.15 :=
          mul_le_mul_of_nonneg_right h2 (by norm_num)
      _ = 0.075 := by norm_num
  · intro c0 h0d h0g h00 houtp
    obtain ⟨hoob, hx, hy, hdr, hgr⟩ :=
      heldIter_inv play fy rv rw px py c0 h0d h0g h00 houtp OOB_HARD_FRAMES (le_refl _)
    have hout' : outOfPlay play (heldIter play fy rv rw px py c0 OOB_HARD_FRAMES).x
        (heldIter play fy rv rw px py c0 OOB_HARD_FRAMES).y := by
      rw [hx, hy]; exact houtp
    have hfin := tickBody_out_hard play fy rv rw _ hdr hgr hout' (by omega)
    exact ⟨hoob, by rw [hfin], by rw [hfin]⟩

theorem C6_hard_rescue_witness :
    (tickBody demoPlay 500 (1/2) (1/2) chipHard).x = demoPlay.cx ∧
    (tickBody demoPlay 500 (1/2) (1/2) chipHard).oob = 0 :=
  ⟨(C6_hard_rescue demoPlay 800 600 500 9 1 (1/2) (1/2) (-100) 100 rfl chipHard
      rfl rfl demoOut (by decide)).1,
   (C6_hard_rescue demoPlay 800 600 500 9 1 (1/2) (1/2) (-100) 100 rfl chipHard
      rfl rfl demoOut (by decide)).2.2.2.2.2.2.1⟩

/-! ## Claim C7 (corrected) -/

/-- C7 counterexample: a live, non-dragged, non-grace body out of the
playable region whose counter has just passed the soft threshold. The
claim as stated says the soft correction does not directly set the body
position; the code sets the position to the play-box-clamped point, here
moving x from -100 to 24. -/
theorem C7_counterexample :
    chipSoft.dragging = false ∧ chipSoft.grace = 0 ∧
    outOfPlay demoPlay chipSoft.x chipSoft.y ∧
    chipSoft.oob + 1 = 51 ∧
    (tickBody demoPlay 500 (1/2) (1/2) chipSoft).x ≠ chipSoft.x := by
  have hout : outOfPlay demoPlay chipSoft.x chipSoft.y := demoOut
  have hs := tickBody_out_soft demoPlay 500 (1/2) (1/2) chipSoft rfl rfl hout
    (by decide) (by decide)
  refine ⟨rfl, rfl, hout, rfl, ?_⟩
  rw [hs]
  show min (max chipSoft.x (demoPlay.left + 6)) (demoPlay.right - 6) ≠ chipSoft.x
  rw [demoPlay_eq]
  show min (max (-100 : ℚ) (18 + 6)) (782 - 6) ≠ -100
  norm_num [max_def, min_def]

/-- C7 (amended): when a live, non-dragged, non-grace body's incremented
counter exceeds the soft threshold but not the hard one, the soft rescue
directly sets the body position to the nearest point of the playable
region (x and y clamped into the box margins, y kept above the floor) and
gives it a gentle corrective velocity — upward settle-kick vertical
velocity and a small random horizontal velocity of magnitude at most 1.5 —
while the counter keeps its incremented value. -/
theorem C7_soft_rescue (play : PlayBox) (fy rv rw : ℚ) (c : Chip)
    (hd : c.dragging = false) (hg : c.grace = 0)
    (hout : outOfPlay play c.x c.y)
    (h1 : OOB_SOFT_FRAMES < c.oob + 1) (h2 : c.oob + 1 ≤ OOB_HARD_FRAMES) :
    (tickBody play fy rv rw c).x = min (max c.x (play.left + 6)) (play.right - 6) ∧
    (tickBody play fy rv rw c).y
      = min (max c.y (play.top + c.bh / 2 + 4))
          (min (play.bottom - c.bh / 2 - 4) (fy - c.bh / 2 - 4)) ∧
    (tickBody play fy rv rw c).vy = -SETTLE_KICK ∧
    (0 ≤ rv → rv < 1 → abs ((tickBody play fy rv rw c).vx) ≤ 1.5) ∧
    (tickBody play fy rv rw c).oob = c.oob + 1 := by
  have hs := tickBody_out_soft play fy rv rw c hd hg hout h1 h2
  refine ⟨by rw [hs], by rw [hs], by rw [hs], ?_, by rw [hs]⟩
  intro h0 hlt
  rw [hs]
  show abs ((rv - 0.5) * 3) ≤ 1.5
  have hb : abs (rv - 0.5) ≤ 0.5 := abs_le.mpr ⟨by linarith, by linarith⟩
  rw [abs_mul, abs_of_pos (show (0 : ℚ) < 3 by norm_num)]
  calc abs (rv - 0.5) * 3 ≤ 0.5 * 3 := mul_le_mul_of_nonneg_right hb (by norm_num)
    _ = 1.5 := by norm_num

theorem C7_soft_rescue_witness :
    (tickBody demoPlay 500 (1/2) (1/2) chipSoft).x
      = min (max chipSoft.x (demoPlay.left + 6)) (demoPlay.right - 6) ∧
    (tickBody demoPlay 500 (1/2) (1/2) chipSoft).y
      = min (max chipSoft.y (demoPlay.top + chipSoft.bh / 2 + 4))
          (min (demoPlay.bottom - chipSoft.bh / 2 - 4) (500 - chipSoft.bh / 2 - 4)) ∧
    (tickBody demoPlay 500 (1/2) (1/2) chipSoft).vy = -SETTLE_KICK ∧
    (0 ≤ (1/2 : ℚ) → (1/2 : ℚ) < 1 →
        abs ((tickBody demoPlay 500 (1/2) (1/2) chipSoft).vx) ≤ 1.5) ∧
    (tickBody demoPlay 500 (1/2) (1/2) chipSoft).oob = chipSoft.oob + 1 :=
  C7_soft_rescue demoPlay 500 (1/2) (1/2) chipSoft rfl rfl demoOut
    (by decide) (by decide)

/-! ## Claim C9 (corrected) -/

/-- C9 counterexample: a dragged body resting through the floor line with
zero vertical velocity. The claim as stated covers any live body, but the
`afterUpdate` handler returns early for the dragged body, so no settle
kick is applied and its vertical velocity stays 0. -/
theorem C9_counterexample :
    abs chipDrag.vy < 0.08 ∧
    chipDrag.y > 480 - chipDrag.bh / 2 - 2 ∧
    chipDrag.dragging = true ∧
    (tickBody demoPlay 480 (1/2) (1/2) chipDrag).vy = chipDrag.vy ∧
    (tickBody demoPlay 480 (1/2) (1/2) chipDrag).vy ≠ -SETTLE_KICK := by
  have hd := tickBody_dragged demoPlay 480 (1/2) (1/2) chipDrag rfl
  refine ⟨?_, ?_, rfl, ?_, ?_⟩
  · rw [show chipDrag.vy = 0 from rfl, abs_zero]
    norm_num
  · show (500 : ℚ) > 480 - 24 / 2 - 2
    norm_num
  · rw [hd]
  · rw [hd]
    show (0 : ℚ) ≠ -SETTLE_KICK
    unfold SETTLE_KICK
    norm_num

/-- C9 (amended): on every simulation tick, any live, non-dragged,
non-grace body whose vertical velocity magnitude is below the rest
threshold (0.08) and whose center is at or through the floor line gets its
vertical velocity set to the upward settle-kick value. -/
theorem C9_settle_kick (play : PlayBox) (fy rv rw : ℚ) (c : Chip)
    (hd : c.dragging = false) (hg : c.grace = 0)
    (hrest : abs c.vy < 0.08) (hfloor : c.y > fy - c.bh / 2 - 2) :
    (tickBody play fy rv rw c).vy = -SETTLE_KICK := by
  have hset : (settleKickApply fy c).vy = -SETTLE_KICK :=
    settleKickApply_vy_of_rest fy c ⟨hrest, hfloor⟩
  by_cases hout : outOfPlay play c.x c.y
  · by_cases hhard : OOB_HARD_FRAMES < c.oob + 1
    · rw [tickBody_out_hard play fy rv rw c hd hg hout hhard]
    · by_cases hsoft : OOB_SOFT_FRAMES < c.oob + 1
      · rw [tickBody_out_soft play fy rv rw c hd hg hout hsoft (by omega)]
      · rw [tickBody_out_count play fy rv rw c hd hg hout (by omega)]
        exact hset
  · rw [tickBody_inside play fy rv rw c hd hg hout]
    exact hset

theorem C9_settle_kick_witness :
    (tickBody demoPlay 480 (1/2) (1/2) chipRest).vy = -SETTLE_KICK :=
  C9_settle_kick demoPlay 480 (1/2) (1/2) chipRest rfl rfl chipRest_rest chipRest_floor

end SortGame
